import Mathlib

/-!
Verification of the G-Doc collaborative-editing backend core
(`backend/websocket_manager.py`, `backend/document_persistence.py`,
`backend/main.py`) against its natural-language specification.

The Python state is embedded shallowly:
* Python `dict`s become association lists with Python `dict` semantics
  (assignment to an existing key replaces its value in place, a new key is
  appended; `del` removes the key; iteration is in list order).
* WebSocket handles are opaque (`Handle := Nat`); send success or failure is
  an environment parameter `sendOk`.
* Message payloads are opaque strings.
* The database is a keyed store `List (Nat × String)`; per-id commit success
  is an environment parameter `storeOk`.
-/

/-- Python `d[k]` / `d.get(k)`: value of the first matching key. -/
def dictLookup {α β : Type} [DecidableEq α] (k : α) : List (α × β) → Option β
  | [] => none
  | (k1, v) :: rest => if k1 = k then some v else dictLookup k rest

/-- Python `d[k] = v`: replace the value of the first matching key in place,
or append the binding if the key is absent. -/
def dictInsert {α β : Type} [DecidableEq α] (k : α) (v : β) : List (α × β) → List (α × β)
  | [] => [(k, v)]
  | (k1, v1) :: rest =>
    if k1 = k then (k, v) :: rest else (k1, v1) :: dictInsert k v rest

/-- Python `del d[k]`: remove the first matching key (with unique keys, the
only one). -/
def dictErase {α β : Type} [DecidableEq α] (k : α) : List (α × β) → List (α × β)
  | [] => []
  | (k1, v1) :: rest =>
    if k1 = k then rest else (k1, v1) :: dictErase k rest

/-- Python `list(d.keys())`: keys in insertion order. -/
def dictKeys {α β : Type} (l : List (α × β)) : List α := l.map Prod.fst

theorem dictKeys_nil {α β : Type} : dictKeys ([] : List (α × β)) = [] := rfl

theorem dictKeys_cons {α β : Type} (p : α × β) (l : List (α × β)) :
    dictKeys (p :: l) = p.1 :: dictKeys l := rfl

theorem dictLookup_insert_self {α β : Type} [DecidableEq α] (k : α) (v : β)
    (l : List (α × β)) : dictLookup k (dictInsert k v l) = some v := by
  induction l with
  | nil => simp [dictInsert, dictLookup]
  | cons p rest ih =>
    obtain ⟨k1, v1⟩ := p
    by_cases h : k1 = k <;> simp [dictInsert, dictLookup, h, ih]

theorem dictLookup_insert_ne {α β : Type} [DecidableEq α] {k k1 : α} (v : β)
    (l : List (α × β)) (h : k1 ≠ k) :
    dictLookup k1 (dictInsert k v l) = dictLookup k1 l := by
  induction l with
  | nil => simp [dictInsert, dictLookup, Ne.symm h]
  | cons p rest ih =>
    obtain ⟨k2, v2⟩ := p
    by_cases h2 : k2 = k
    · subst h2; simp [dictInsert, dictLookup, Ne.symm h, h]
    · by_cases h3 : k2 = k1 <;> simp [dictInsert, dictLookup, h, h2, h3, ih]

theorem dictLookup_erase_ne {α β : Type} [DecidableEq α] {k k1 : α}
    (l : List (α × β)) (h : k1 ≠ k) :
    dictLookup k1 (dictErase k l) = dictLookup k1 l := by
  induction l with
  | nil => simp [dictErase]
  | cons p rest ih =>
    obtain ⟨k2, v2⟩ := p
    by_cases h2 : k2 = k
    · subst h2; simp [dictErase, dictLookup, Ne.symm h, h]
    · by_cases h3 : k2 = k1 <;> simp [dictErase, dictLookup, h, h2, h3, ih]

theorem dictLookup_eq_none_iff {α β : Type} [DecidableEq α] (k : α)
    (l : List (α × β)) : dictLookup k l = none ↔ k ∉ dictKeys l := by
  induction l with
  | nil => simp [dictLookup, dictKeys]
  | cons p rest ih =>
    obtain ⟨k1, v1⟩ := p
    by_cases h : k1 = k
    · subst h; simp [dictLookup, dictKeys_cons]
    · have hne : k ≠ k1 := fun he => h he.symm
      rw [dictKeys_cons]
      simp only [dictLookup, if_neg h, List.mem_cons]
      simp [hne, ih]

theorem dictLookup_mem {α β : Type} [DecidableEq α] {k : α} {v : β}
    {l : List (α × β)} (h : dictLookup k l = some v) : (k, v) ∈ l := by
  induction l with
  | nil => simp [dictLookup] at h
  | cons p rest ih =>
    obtain ⟨k1, v1⟩ := p
    by_cases h1 : k1 = k
    · subst h1
      simp [dictLookup] at h
      simp [h]
    · simp [dictLookup, h1] at h
      exact List.mem_cons_of_mem _ (ih h)

theorem dictLookup_isSome_iff {α β : Type} [DecidableEq α] (k : α)
    (l : List (α × β)) : (dictLookup k l).isSome = true ↔ k ∈ dictKeys l := by
  rcases h : dictLookup k l with _ | v
  · simpa [h] using (dictLookup_eq_none_iff k l).mp h
  · simp only [h, Option.isSome_some, true_iff]
    exact List.mem_map.mpr ⟨(k, v), dictLookup_mem h, rfl⟩

theorem mem_dictKeys_insert {α β : Type} [DecidableEq α] {a : α} (k : α) (v : β)
    (l : List (α × β)) :
    a ∈ dictKeys (dictInsert k v l) ↔ a = k ∨ a ∈ dictKeys l := by
  induction l with
  | nil => simp [dictInsert, dictKeys]
  | cons p rest ih =>
    obtain ⟨k1, v1⟩ := p
    by_cases h : k1 = k
    · subst h; simp [dictInsert, dictKeys_cons]
    · simp only [dictInsert, if_neg h, dictKeys_cons, List.mem_cons, ih]
      tauto

theorem mem_dictKeys_of_mem_erase {α β : Type} [DecidableEq α] {a : α} (k : α)
    (l : List (α × β)) (h : a ∈ dictKeys (dictErase k l)) : a ∈ dictKeys l := by
  induction l with
  | nil => simpa [dictErase] using h
  | cons p rest ih =>
    obtain ⟨k1, v1⟩ := p
    by_cases h1 : k1 = k
    · subst h1
      simp [dictErase] at h
      rw [dictKeys_cons, List.mem_cons]
      exact Or.inr h
    · simp only [dictErase, if_neg h1, dictKeys_cons, List.mem_cons] at h ⊢
      rcases h with h | h
      · exact Or.inl h
      · exact Or.inr (ih h)

theorem dictLookup_erase_self_of_nodup {α β : Type} [DecidableEq α] (k : α)
    {l : List (α × β)} (h : (dictKeys l).Nodup) :
    dictLookup k (dictErase k l) = none := by
  induction l with
  | nil => simp [dictErase, dictLookup]
  | cons p rest ih =>
    obtain ⟨k1, v1⟩ := p
    rw [dictKeys_cons, List.nodup_cons] at h
    by_cases h1 : k1 = k
    · subst h1
      simp [dictErase]
      exact (dictLookup_eq_none_iff _ rest).mpr h.1
    · simp [dictErase, dictLookup, h1, ih h.2]

theorem dictKeys_insert_toFinset {β : Type} (k : String) (v : β)
    (l : List (String × β)) :
    (dictKeys (dictInsert k v l)).toFinset = insert k (dictKeys l).toFinset := by
  induction l with
  | nil => simp [dictInsert, dictKeys]
  | cons p rest ih =>
    obtain ⟨k1, v1⟩ := p
    by_cases h : k1 = k
    · subst h; simp [dictInsert, dictKeys_cons]
    · simp only [dictInsert, if_neg h, dictKeys_cons, List.toFinset_cons]
      rw [ih]
      exact (Finset.Insert.comm _ _ _).symm

theorem dictKeys_erase_toFinset_of_nodup {β : Type} (k : String)
    {l : List (String × β)} (h : (dictKeys l).Nodup) :
    (dictKeys (dictErase k l)).toFinset = (dictKeys l).toFinset.erase k := by
  induction l with
  | nil => simp [dictErase, dictKeys]
  | cons p rest ih =>
    obtain ⟨k1, v1⟩ := p
    rw [dictKeys_cons, List.nodup_cons] at h
    by_cases h1 : k1 = k
    · subst h1
      have hk : k1 ∉ (dictKeys rest).toFinset := by simpa using h.1
      simp [dictErase, dictKeys_cons, Finset.erase_insert hk]
    · simp only [dictErase, if_neg h1, dictKeys_cons, List.toFinset_cons]
      rw [ih h.2, Finset.erase_insert_of_ne h1]

theorem dictKeys_insert_nodup {α β : Type} [DecidableEq α] (k : α) (v : β)
    {l : List (α × β)} (h : (dictKeys l).Nodup) :
    (dictKeys (dictInsert k v l)).Nodup := by
  induction l with
  | nil => simp [dictInsert, dictKeys]
  | cons p rest ih =>
    obtain ⟨k1, v1⟩ := p
    rw [dictKeys_cons, List.nodup_cons] at h
    by_cases h1 : k1 = k
    · subst h1
      have he : dictInsert k1 v ((k1, v1) :: rest) = (k1, v) :: rest := by
        simp [dictInsert]
      rw [he, dictKeys_cons, List.nodup_cons]
      exact h
    · simp only [dictInsert, if_neg h1, dictKeys_cons, List.nodup_cons]
      refine ⟨fun hk => ?_, ih h.2⟩
      rcases (mem_dictKeys_insert k v rest).mp hk with h2 | h2
      · exact h1 h2
      · exact h.1 h2

theorem dictKeys_erase_nodup {α β : Type} [DecidableEq α] (k : α)
    {l : List (α × β)} (h : (dictKeys l).Nodup) :
    (dictKeys (dictErase k l)).Nodup := by
  induction l with
  | nil => simp [dictErase, dictKeys]
  | cons p rest ih =>
    obtain ⟨k1, v1⟩ := p
    rw [dictKeys_cons, List.nodup_cons] at h
    by_cases h1 : k1 = k
    · subst h1
      simp [dictErase]
      exact h.2
    · simp only [dictErase, if_neg h1, dictKeys_cons, List.nodup_cons]
      exact ⟨fun hk => h.1 (mem_dictKeys_of_mem_erase k rest hk), ih h.2⟩

/-! ## Connection registry and broadcast router (`backend/websocket_manager.py`) -/

/-- Participant id (`user_id`): the string taken from the JWT `sub` claim. -/
abbrev UserId := String

/-- Document id: the path parameter of the WebSocket route, a string. -/
abbrev DocId := String

/-- An opaque WebSocket connection handle. -/
abbrev Handle := Nat

/-- An opaque message payload (the JSON dict passed to `send_json`). -/
abbrev Msg := String

/-- A send environment: whether `connection.send_json` succeeds for the given
participant and handle during the operation under consideration. -/
abbrev SendEnv := UserId → Handle → Bool

/-- The environment in which every `send_json` call succeeds. -/
def allSendsOk : SendEnv := fun _ _ => true

/-- `ConnectionManager.__init__`: `active_connections` is
`{document_id: {user_id: WebSocket}}`, `redis` the optional pub/sub client
(modelled by whether it is connected), and `subscribed_documents` the set of
documents with an active Redis listener. -/
structure ConnectionManager where
  active_connections : List (DocId × List (UserId × Handle))
  redisConnected : Bool
  subscribed_documents : List DocId
  deriving DecidableEq, Repr

/-- A `ConnectionManager()` as built at process start, before or after
`connect_redis` (which only sets the client). -/
def initManager (redisConnected : Bool) : ConnectionManager :=
  { active_connections := [], redisConnected := redisConnected,
    subscribed_documents := [] }

/-- One message published on the Redis bus by `_publish_to_redis`:
`redis.publish(f"document:{document_id}", json.dumps({"message": message,
"exclude_user": exclude_user}))`. -/
structure PubEvent where
  channel : String
  message : Msg
  exclude_user : Option UserId
  deriving DecidableEq, Repr

/-- `ConnectionManager._publish_to_redis` serializes the message plus the
exclusion and publishes it on the channel named for the document. -/
def publish_to_redis (document_id : DocId) (message : Msg)
    (exclude_user : Option UserId) : PubEvent :=
  { channel := "document:" ++ document_id, message := message,
    exclude_user := exclude_user }

/-- `if exclude_user and user_id == exclude_user: continue` — note Python
truthiness: `None` and the empty string are both falsy, so an empty-string
exclusion excludes nobody. -/
def pySkip (exclude_user : Option UserId) (user_id : UserId) : Bool :=
  match exclude_user with
  | none => false
  | some e => !(e = "") && (user_id = e)

/-- The `for user_id, connection in ...items()` loop body of
`broadcast_to_document`: skip the excluded user, try `send_json`, collect
senders whose send raised into `disconnected_users`.  Returns the successful
sends (in loop order) and `disconnected_users` (in loop order). -/
def sendLoop (message : Msg) (exclude_user : Option UserId) (sendOk : SendEnv) :
    List (UserId × Handle) → List (UserId × Msg) × List UserId
  | [] => ([], [])
  | (u, h) :: rest =>
    if pySkip exclude_user u then sendLoop message exclude_user sendOk rest
    else if sendOk u h then
      let r := sendLoop message exclude_user sendOk rest
      ((u, message) :: r.1, r.2)
    else
      let r := sendLoop message exclude_user sendOk rest
      (r.1, u :: r.2)

/-- `ConnectionManager.disconnect`: remove the handle if present; delete the
document room once it becomes empty. -/
def ConnectionManager.disconnect (m : ConnectionManager) (document_id : DocId)
    (user_id : UserId) : ConnectionManager :=
  match dictLookup document_id m.active_connections with
  | none => m
  | some room =>
    if (dictLookup user_id room).isSome then
      let room1 := dictErase user_id room
      if room1.isEmpty then
        { m with active_connections := dictErase document_id m.active_connections }
      else
        { m with active_connections := dictInsert document_id room1 m.active_connections }
    else m

/-- Result of one `broadcast_to_document` call: the local `send_json` calls
that succeeded, the publishes handed to Redis, and the manager state after
dead connections were pruned. -/
structure BroadcastResult where
  sends : List (UserId × Msg)
  publishes : List PubEvent
  state : ConnectionManager
  deriving DecidableEq, Repr

/-- `ConnectionManager.broadcast_to_document`: send to every local connection
of the document except the excluded user, disconnect every user whose send
raised, then publish the envelope to Redis when a client exists. -/
def ConnectionManager.broadcast_to_document (m : ConnectionManager)
    (document_id : DocId) (message : Msg) (exclude_user : Option UserId)
    (sendOk : SendEnv) : BroadcastResult :=
  let localFan :=
    match dictLookup document_id m.active_connections with
    | none => ([], m)
    | some room =>
      let r := sendLoop message exclude_user sendOk room
      (r.1, r.2.foldl (fun s u => s.disconnect document_id u) m)
  { sends := localFan.1,
    publishes :=
      if m.redisConnected then [publish_to_redis document_id message exclude_user]
      else [],
    state := localFan.2 }

/-- The body of `ConnectionManager._redis_listener` for one bus message:
forward to local connections honoring the exclusion, log (and otherwise
ignore) send errors, and publish nothing back to Redis. -/
def ConnectionManager.redis_listener_deliver (m : ConnectionManager)
    (document_id : DocId) (message : Msg) (exclude_user : Option UserId)
    (sendOk : SendEnv) : BroadcastResult :=
  match dictLookup document_id m.active_connections with
  | none => { sends := [], publishes := [], state := m }
  | some room =>
    let r := sendLoop message exclude_user sendOk room
    { sends := r.1, publishes := [], state := m }

/-- The `user_joined` notification broadcast at the end of `connect`. -/
def userJoinedMsg (user_id : UserId) : Msg := "user_joined " ++ user_id

/-- `ConnectionManager.connect`: accept, register the handle (replacing any
prior handle of the same participant), lazily subscribe the document channel,
then broadcast `user_joined` to the others. -/
def ConnectionManager.connect (m : ConnectionManager) (document_id : DocId)
    (user_id : UserId) (h : Handle) (sendOk : SendEnv) : ConnectionManager :=
  let room := (dictLookup document_id m.active_connections).getD []
  let m1 :=
    { m with
      active_connections :=
        dictInsert document_id (dictInsert user_id h room) m.active_connections }
  let m2 :=
    if m1.redisConnected && !(m1.subscribed_documents.contains document_id) then
      { m1 with subscribed_documents := document_id :: m1.subscribed_documents }
    else m1
  (m2.broadcast_to_document document_id (userJoinedMsg user_id) (some user_id)
    sendOk).state

/-- `ConnectionManager.get_active_users`: the document room's keys, or `[]`
when the document has no entry. -/
def ConnectionManager.get_active_users (m : ConnectionManager)
    (document_id : DocId) : List UserId :=
  match dictLookup document_id m.active_connections with
  | some room => dictKeys room
  | none => []

/-! ### Characterizations of the broadcast loop -/

theorem sendLoop_sends (message : Msg) (exclude_user : Option UserId)
    (sendOk : SendEnv) (room : List (UserId × Handle)) :
    (sendLoop message exclude_user sendOk room).1 =
      (room.filter (fun e => !pySkip exclude_user e.1 && sendOk e.1 e.2)).map
        (fun e => (e.1, message)) := by
  induction room with
  | nil => simp [sendLoop]
  | cons p rest ih =>
    obtain ⟨u, h⟩ := p
    by_cases hs : pySkip exclude_user u
    · simp [sendLoop, hs, ih]
    · by_cases hk : sendOk u h <;>
        simp [sendLoop, hs, hk, ih, List.filter_cons]

theorem sendLoop_dead (message : Msg) (exclude_user : Option UserId)
    (sendOk : SendEnv) (room : List (UserId × Handle)) :
    (sendLoop message exclude_user sendOk room).2 =
      (room.filter (fun e => !pySkip exclude_user e.1 && !sendOk e.1 e.2)).map
        Prod.fst := by
  induction room with
  | nil => simp [sendLoop]
  | cons p rest ih =>
    obtain ⟨u, h⟩ := p
    by_cases hs : pySkip exclude_user u
    · simp [sendLoop, hs, ih]
    · by_cases hk : sendOk u h <;>
        simp [sendLoop, hs, hk, ih, List.filter_cons]

theorem mem_dictInsert {α β : Type} [DecidableEq α] {p : α × β} (k : α) (v : β)
    (l : List (α × β)) (h : p ∈ dictInsert k v l) : p = (k, v) ∨ p ∈ l := by
  induction l with
  | nil => simpa [dictInsert] using h
  | cons q rest ih =>
    obtain ⟨k1, v1⟩ := q
    by_cases h1 : k1 = k
    · subst h1
      simp [dictInsert] at h
      rcases h with h | h
      · exact Or.inl (by simp [h])
      · exact Or.inr (List.mem_cons_of_mem _ h)
    · simp only [dictInsert, if_neg h1, List.mem_cons] at h
      rcases h with h | h
      · exact Or.inr (by simp [h])
      · rcases ih h with h2 | h2
        · exact Or.inl h2
        · exact Or.inr (List.mem_cons_of_mem _ h2)

theorem mem_of_mem_dictErase {α β : Type} [DecidableEq α] {p : α × β} (k : α)
    (l : List (α × β)) (h : p ∈ dictErase k l) : p ∈ l := by
  induction l with
  | nil => simp [dictErase] at h
  | cons q rest ih =>
    obtain ⟨k1, v1⟩ := q
    by_cases h1 : k1 = k
    · subst h1
      simp [dictErase] at h
      exact List.mem_cons_of_mem _ h
    · simp only [dictErase, if_neg h1, List.mem_cons] at h
      rcases h with h | h
      · simp [h]
      · exact List.mem_cons_of_mem _ (ih h)

/-- With every send succeeding, a broadcast prunes nobody: the manager state
is unchanged. -/
theorem broadcast_state_allOk (m : ConnectionManager) (document_id : DocId)
    (message : Msg) (exclude_user : Option UserId) :
    (m.broadcast_to_document document_id message exclude_user allSendsOk).state
      = m := by
  unfold ConnectionManager.broadcast_to_document
  rcases h : dictLookup document_id m.active_connections with _ | room
  · simp [h]
  · simp [h, sendLoop_dead, allSendsOk]

/-- Every successful local delivery of a broadcast goes to a currently
registered participant of the document. -/
theorem broadcast_sends_mem_active (m : ConnectionManager) (document_id : DocId)
    (message : Msg) (exclude_user : Option UserId) (sendOk : SendEnv)
    (u : UserId) (mm : Msg)
    (h : (u, mm) ∈ (m.broadcast_to_document document_id message exclude_user
      sendOk).sends) : u ∈ m.get_active_users document_id := by
  unfold ConnectionManager.broadcast_to_document at h
  rcases hl : dictLookup document_id m.active_connections with _ | room
  · simp [hl] at h
  · simp only [hl, sendLoop_sends] at h
    rcases List.mem_map.mp h with ⟨e, he, hemm⟩
    have : e.1 = u := congrArg Prod.fst hemm
    unfold ConnectionManager.get_active_users
    rw [hl]
    exact this ▸ List.mem_map.mpr ⟨e, (List.mem_filter.mp he).1, rfl⟩

/-! ### Registry well-formedness (dict key uniqueness) and step lemmas -/

/-- Key uniqueness of the registry dictionaries: outer keys (document ids)
and each room's keys (participant ids) are distinct, as Python `dict`s
guarantee by construction. -/
def WF (m : ConnectionManager) : Prop :=
  (dictKeys m.active_connections).Nodup ∧
    ∀ p ∈ m.active_connections, (dictKeys p.2).Nodup

theorem WF_initManager (redis : Bool) : WF (initManager redis) := by
  constructor
  · simp [initManager, dictKeys]
  · intro p hp
    simp [initManager] at hp

/-- `connect` with all sends succeeding only inserts the handle into the
document room (the subscribe branch touches `subscribed_documents` only, and
the `user_joined` broadcast prunes nobody). -/
theorem connect_active_connections (m : ConnectionManager) (d : DocId)
    (u : UserId) (h : Handle) :
    (m.connect d u h allSendsOk).active_connections =
      dictInsert d (dictInsert u h ((dictLookup d m.active_connections).getD []))
        m.active_connections := by
  unfold ConnectionManager.connect
  rw [broadcast_state_allOk]
  split <;> rfl

theorem get_active_users_eq_of_lookup {m : ConnectionManager} {doc : DocId}
    {room : List (UserId × Handle)}
    (hl : dictLookup doc m.active_connections = some room) :
    m.get_active_users doc = dictKeys room := by
  unfold ConnectionManager.get_active_users
  rw [hl]

theorem get_active_users_eq_nil_of_lookup_none {m : ConnectionManager}
    {doc : DocId} (hl : dictLookup doc m.active_connections = none) :
    m.get_active_users doc = [] := by
  unfold ConnectionManager.get_active_users
  rw [hl]

theorem get_active_users_connect (m : ConnectionManager) (d : DocId)
    (u : UserId) (h : Handle) (doc : DocId) :
    ((m.connect d u h allSendsOk).get_active_users doc).toFinset =
      if d = doc then insert u (m.get_active_users d).toFinset
      else (m.get_active_users doc).toFinset := by
  have hac := connect_active_connections m d u h
  by_cases hd : d = doc
  · subst hd
    have hl2 : dictLookup d (m.connect d u h allSendsOk).active_connections =
        some (dictInsert u h ((dictLookup d m.active_connections).getD [])) := by
      rw [hac]
      exact dictLookup_insert_self _ _ _
    rw [get_active_users_eq_of_lookup hl2, if_pos rfl, dictKeys_insert_toFinset]
    rcases hl : dictLookup d m.active_connections with _ | room
    · rw [get_active_users_eq_nil_of_lookup_none hl]
      simp [dictKeys]
    · rw [get_active_users_eq_of_lookup hl]
      simp
  · rw [if_neg hd]
    have heq : dictLookup doc (m.connect d u h allSendsOk).active_connections =
        dictLookup doc m.active_connections := by
      rw [hac]
      exact dictLookup_insert_ne _ _ (fun he => hd he.symm)
    rcases hl2 : dictLookup doc m.active_connections with _ | room2
    · rw [get_active_users_eq_nil_of_lookup_none (heq.trans hl2),
        get_active_users_eq_nil_of_lookup_none hl2]
    · rw [get_active_users_eq_of_lookup (heq.trans hl2),
        get_active_users_eq_of_lookup hl2]


/-! ### Equation lemmas for `disconnect` -/

theorem disconnect_of_no_doc {m : ConnectionManager} {d : DocId} (u : UserId)
    (hl : dictLookup d m.active_connections = none) : m.disconnect d u = m := by
  unfold ConnectionManager.disconnect
  rw [hl]

theorem disconnect_of_no_user {m : ConnectionManager} {d : DocId} {u : UserId}
    {room : List (UserId × Handle)}
    (hl : dictLookup d m.active_connections = some room)
    (hu : dictLookup u room = none) : m.disconnect d u = m := by
  unfold ConnectionManager.disconnect
  rw [hl]
  simp [hu]

theorem disconnect_of_last_user {m : ConnectionManager} {d : DocId} {u : UserId}
    {room : List (UserId × Handle)}
    (hl : dictLookup d m.active_connections = some room)
    (hu : (dictLookup u room).isSome = true) (he : dictErase u room = []) :
    m.disconnect d u =
      { m with active_connections := dictErase d m.active_connections } := by
  unfold ConnectionManager.disconnect
  rw [hl]
  simp [hu, he]

theorem disconnect_of_other_users {m : ConnectionManager} {d : DocId}
    {u : UserId} {room : List (UserId × Handle)}
    (hl : dictLookup d m.active_connections = some room)
    (hu : (dictLookup u room).isSome = true) (he : dictErase u room ≠ []) :
    m.disconnect d u =
      { m with active_connections :=
          dictInsert d (dictErase u room) m.active_connections } := by
  unfold ConnectionManager.disconnect
  rw [hl]
  simp [hu, he]

theorem get_active_users_disconnect (m : ConnectionManager) (hWF : WF m)
    (d : DocId) (u : UserId) (doc : DocId) :
    ((m.disconnect d u).get_active_users doc).toFinset =
      if d = doc then (m.get_active_users doc).toFinset.erase u
      else (m.get_active_users doc).toFinset := by
  rcases hl : dictLookup d m.active_connections with _ | room
  · rw [disconnect_of_no_doc u hl]
    by_cases hd : d = doc
    · subst hd
      rw [get_active_users_eq_nil_of_lookup_none hl, if_pos rfl]
      simp
    · rw [if_neg hd]
  · have hroom : (dictKeys room).Nodup := hWF.2 (d, room) (dictLookup_mem hl)
    rcases hu : dictLookup u room with _ | hv
    · rw [disconnect_of_no_user hl hu]
      by_cases hd : d = doc
      · subst hd
        have hnm : u ∉ (m.get_active_users d).toFinset := by
          rw [get_active_users_eq_of_lookup hl]
          simpa using (dictLookup_eq_none_iff u room).mp hu
        rw [if_pos rfl, Finset.erase_eq_of_not_mem hnm]
      · rw [if_neg hd]
    · have husome : (dictLookup u room).isSome = true := by simp [hu]
      by_cases he : dictErase u room = []
      · rw [disconnect_of_last_user hl husome he]
        by_cases hd : d = doc
        · subst hd
          rw [get_active_users_eq_nil_of_lookup_none
              (dictLookup_erase_self_of_nodup d hWF.1),
            get_active_users_eq_of_lookup hl, if_pos rfl]
          have h2 := dictKeys_erase_toFinset_of_nodup u hroom
          rw [he] at h2
          simpa using h2
        · rw [if_neg hd]
          have heq : dictLookup doc (dictErase d m.active_connections) =
              dictLookup doc m.active_connections :=
            dictLookup_erase_ne _ (fun h2 => hd h2.symm)
          rcases hl2 : dictLookup doc m.active_connections with _ | room2
          · rw [get_active_users_eq_nil_of_lookup_none (heq.trans hl2),
              get_active_users_eq_nil_of_lookup_none hl2]
          · rw [get_active_users_eq_of_lookup (heq.trans hl2),
              get_active_users_eq_of_lookup hl2]
      · rw [disconnect_of_other_users hl husome he]
        by_cases hd : d = doc
        · subst hd
          rw [get_active_users_eq_of_lookup
              (dictLookup_insert_self d _ m.active_connections),
            get_active_users_eq_of_lookup hl, if_pos rfl]
          exact dictKeys_erase_toFinset_of_nodup u hroom
        · rw [if_neg hd]
          have heq : dictLookup doc
              (dictInsert d (dictErase u room) m.active_connections) =
              dictLookup doc m.active_connections :=
            dictLookup_insert_ne _ _ (fun h2 => hd h2.symm)
          rcases hl2 : dictLookup doc m.active_connections with _ | room2
          · rw [get_active_users_eq_nil_of_lookup_none (heq.trans hl2),
              get_active_users_eq_nil_of_lookup_none hl2]
          · rw [get_active_users_eq_of_lookup (heq.trans hl2),
              get_active_users_eq_of_lookup hl2]

theorem WF_connect (m : ConnectionManager) (hWF : WF m) (d : DocId)
    (u : UserId) (h : Handle) : WF (m.connect d u h allSendsOk) := by
  have hac := connect_active_connections m d u h
  constructor
  · rw [hac]
    exact dictKeys_insert_nodup _ _ hWF.1
  · rw [hac]
    intro p hp
    rcases mem_dictInsert _ _ _ hp with h1 | h1
    · subst h1
      rcases hl : dictLookup d m.active_connections with _ | room
      · simp only [hl, Option.getD_none]
        exact dictKeys_insert_nodup _ _ (by simp [dictKeys])
      · simp only [hl, Option.getD_some]
        exact dictKeys_insert_nodup _ _ (hWF.2 (d, room) (dictLookup_mem hl))
    · exact hWF.2 p h1

theorem WF_disconnect (m : ConnectionManager) (hWF : WF m) (d : DocId)
    (u : UserId) : WF (m.disconnect d u) := by
  rcases hl : dictLookup d m.active_connections with _ | room
  · rw [disconnect_of_no_doc u hl]
    exact hWF
  · rcases hu : dictLookup u room with _ | hdl
    · rw [disconnect_of_no_user hl hu]
      exact hWF
    · have husome : (dictLookup u room).isSome = true := by simp [hu]
      by_cases he : dictErase u room = []
      · rw [disconnect_of_last_user hl husome he]
        exact ⟨dictKeys_erase_nodup _ hWF.1,
          fun p hp => hWF.2 p (mem_of_mem_dictErase _ _ hp)⟩
      · rw [disconnect_of_other_users hl husome he]
        refine ⟨dictKeys_insert_nodup _ _ hWF.1, fun p hp => ?_⟩
        rcases mem_dictInsert _ _ _ hp with h1 | h1
        · subst h1
          exact dictKeys_erase_nodup _ (hWF.2 (d, room) (dictLookup_mem hl))
        · exact hWF.2 p h1

/-! ### C1: sequences of connect/disconnect against the spec-level set -/

/-- One registry operation of the specification scenario. -/
inductive RegistryOp where
  | connectOp (document_id : DocId) (user_id : UserId) (h : Handle)
  | disconnectOp (document_id : DocId) (user_id : UserId)
  deriving DecidableEq, Repr

/-- Apply one operation (sends during the `user_joined` broadcast all
succeed: the scenario exercises the registry, not delivery failures). -/
def applyOp (m : ConnectionManager) : RegistryOp → ConnectionManager
  | .connectOp d u h => m.connect d u h allSendsOk
  | .disconnectOp d u => m.disconnect d u

def applyOps (m : ConnectionManager) : List RegistryOp → ConnectionManager
  | [] => m
  | op :: ops => applyOps (applyOp m op) ops

/-- The specification-level participant set of one document: participant ids
that have connected and not since disconnected, accumulated left to right. -/
def specConnected (doc : DocId) : List RegistryOp → Finset UserId → Finset UserId
  | [], s => s
  | .connectOp d u _ :: ops, s =>
    specConnected doc ops (if d = doc then insert u s else s)
  | .disconnectOp d u :: ops, s =>
    specConnected doc ops (if d = doc then s.erase u else s)

theorem WF_applyOps (ops : List RegistryOp) :
    ∀ m : ConnectionManager, WF m → WF (applyOps m ops) := by
  induction ops with
  | nil => intro m hWF; exact hWF
  | cons op ops ih =>
    intro m hWF
    rcases op with ⟨d, u, h⟩ | ⟨d, u⟩
    · exact ih _ (WF_connect m hWF d u h)
    · exact ih _ (WF_disconnect m hWF d u)

theorem applyOps_get_active_users (ops : List RegistryOp) :
    ∀ m : ConnectionManager, WF m → ∀ doc : DocId,
      ((applyOps m ops).get_active_users doc).toFinset =
        specConnected doc ops (m.get_active_users doc).toFinset := by
  induction ops with
  | nil => intro m _ doc; rfl
  | cons op ops ih =>
    intro m hWF doc
    rcases op with ⟨d, u, h⟩ | ⟨d, u⟩
    · show ((applyOps (m.connect d u h allSendsOk) ops).get_active_users doc).toFinset = _
      rw [ih _ (WF_connect m hWF d u h) doc, specConnected]
      by_cases hd : d = doc
      · subst hd
        rw [get_active_users_connect, if_pos rfl]
      · rw [get_active_users_connect, if_neg hd, if_neg hd]
    · show ((applyOps (m.disconnect d u) ops).get_active_users doc).toFinset = _
      rw [ih _ (WF_disconnect m hWF d u) doc, specConnected]
      by_cases hd : d = doc
      · subst hd
        rw [get_active_users_disconnect m hWF, if_pos rfl]
      · rw [get_active_users_disconnect m hWF, if_neg hd]

/-! ### Projection equations and membership facts for `broadcast_to_document` -/

theorem broadcast_publishes (m : ConnectionManager) (doc : DocId) (msg : Msg)
    (ex : Option UserId) (sendOk : SendEnv) :
    (m.broadcast_to_document doc msg ex sendOk).publishes =
      if m.redisConnected then [publish_to_redis doc msg ex] else [] := rfl

theorem broadcast_sends_eq {m : ConnectionManager} {doc : DocId}
    {room : List (UserId × Handle)} (msg : Msg) (ex : Option UserId)
    (sendOk : SendEnv) (hl : dictLookup doc m.active_connections = some room) :
    (m.broadcast_to_document doc msg ex sendOk).sends =
      (sendLoop msg ex sendOk room).1 := by
  unfold ConnectionManager.broadcast_to_document
  rw [hl]

theorem broadcast_state_eq {m : ConnectionManager} {doc : DocId}
    {room : List (UserId × Handle)} (msg : Msg) (ex : Option UserId)
    (sendOk : SendEnv) (hl : dictLookup doc m.active_connections = some room) :
    (m.broadcast_to_document doc msg ex sendOk).state =
      (sendLoop msg ex sendOk room).2.foldl
        (fun s u => s.disconnect doc u) m := by
  unfold ConnectionManager.broadcast_to_document
  rw [hl]

theorem broadcast_of_no_room {m : ConnectionManager} {doc : DocId} (msg : Msg)
    (ex : Option UserId) (sendOk : SendEnv)
    (hl : dictLookup doc m.active_connections = none) :
    m.broadcast_to_document doc msg ex sendOk =
      { sends := [],
        publishes := if m.redisConnected then [publish_to_redis doc msg ex]
          else [],
        state := m } := by
  unfold ConnectionManager.broadcast_to_document
  rw [hl]

/-- Membership characterization of the successful local sends of one
broadcast, given the document room. -/
theorem broadcast_sends_mem {m : ConnectionManager} {doc : DocId} {msg : Msg}
    {ex : Option UserId} {sendOk : SendEnv} {room : List (UserId × Handle)}
    (hl : dictLookup doc m.active_connections = some room) (u : UserId)
    (mm : Msg) :
    (u, mm) ∈ (m.broadcast_to_document doc msg ex sendOk).sends ↔
      mm = msg ∧ ∃ h : Handle, (u, h) ∈ room ∧ pySkip ex u = false ∧
        sendOk u h = true := by
  rw [broadcast_sends_eq msg ex sendOk hl, sendLoop_sends]
  constructor
  · intro hmem
    rcases List.mem_map.mp hmem with ⟨e1, he1, heq⟩
    obtain ⟨u1, h1⟩ := e1
    rcases List.mem_filter.mp he1 with ⟨hroom, hcond⟩
    simp only [Bool.and_eq_true] at hcond
    rcases hcond with ⟨hskip, hok⟩
    have hu : u1 = u := congrArg Prod.fst heq
    have hm : msg = mm := congrArg Prod.snd heq
    subst hu
    exact ⟨hm.symm, h1, hroom, by simpa using hskip, hok⟩
  · rintro ⟨hmm, h, hroom, hskip, hok⟩
    subst hmm
    exact List.mem_map.mpr
      ⟨(u, h), List.mem_filter.mpr ⟨hroom, by simp [hskip, hok]⟩, rfl⟩

theorem pySkip_of_ne {e u : UserId} (h : u ≠ e) : pySkip (some e) u = false := by
  simp [pySkip, h]

theorem pySkip_some_false_iff {e u : UserId} (he : e ≠ "") :
    pySkip (some e) u = false ↔ u ≠ e := by
  simp [pySkip, he]

/-- With key uniqueness, the room entries keyed by a present participant form
exactly the one-element list of that participant. -/
theorem filter_fst_eq_nil {β : Type} (f : String) (room : List (String × β))
    (hf : f ∉ dictKeys room) :
    room.filter (fun e => decide (e.1 = f)) = [] := by
  induction room with
  | nil => simp
  | cons p rest ih =>
    obtain ⟨k1, v1⟩ := p
    rw [dictKeys_cons, List.mem_cons] at hf
    push_neg at hf
    have hne : ¬k1 = f := fun he => hf.1 he.symm
    simp only [List.filter_cons]
    rw [if_neg (by simpa using hne)]
    exact ih hf.2

theorem filter_fst_eq_of_nodup {β : Type} (f : String)
    (room : List (String × β)) (hnd : (dictKeys room).Nodup)
    (hf : f ∈ dictKeys room) :
    (room.filter (fun e => decide (e.1 = f))).map Prod.fst = [f] := by
  induction room with
  | nil => simp [dictKeys] at hf
  | cons p rest ih =>
    obtain ⟨k1, v1⟩ := p
    rw [dictKeys_cons, List.nodup_cons] at hnd
    rw [dictKeys_cons, List.mem_cons] at hf
    by_cases h1 : k1 = f
    · subst h1
      simp only [List.filter_cons]
      rw [if_pos (by simp)]
      rw [filter_fst_eq_nil k1 rest hnd.1]
      simp
    · rcases hf with hf | hf
      · exact absurd hf.symm h1
      · simp only [List.filter_cons]
        rw [if_neg (by simpa using h1)]
        exact ih hnd.2 hf

/-- The send environment in which exactly participant `f` raises on
`send_json` and every other delivery succeeds. -/
def failOnly (f : UserId) : SendEnv := fun u _ => decide (u ≠ f)

/-- **C1**: for every document id and every finite sequence of connect and
disconnect operations, `get_active_users` returns exactly the set of
participant ids that have connected and not since disconnected (no ghosts,
no omissions); disconnecting an already-absent participant is a no-op; and
when the last participant of a document disconnects, the document's session
record itself is deleted from the registry map. -/
theorem c1_registry_tracks_membership (ops : List RegistryOp) (doc : DocId)
    (redis : Bool) :
    ((applyOps (initManager redis) ops).get_active_users doc).toFinset =
        specConnected doc ops ∅
    ∧ (∀ (m : ConnectionManager) (d : DocId) (u : UserId),
        u ∉ m.get_active_users d → m.disconnect d u = m)
    ∧ (∀ (m : ConnectionManager) (d : DocId) (u : UserId),
        (dictKeys m.active_connections).Nodup →
        m.get_active_users d = [u] →
        dictLookup d (m.disconnect d u).active_connections = none) := by
  refine ⟨?_, ?_, ?_⟩
  · have h := applyOps_get_active_users ops (initManager redis)
      (WF_initManager redis) doc
    simpa using h
  · intro m d u hu
    rcases hl : dictLookup d m.active_connections with _ | room
    · exact disconnect_of_no_doc u hl
    · rw [get_active_users_eq_of_lookup hl] at hu
      exact disconnect_of_no_user hl ((dictLookup_eq_none_iff u room).mpr hu)
  · intro m d u hnd hga
    rcases hl : dictLookup d m.active_connections with _ | room
    · rw [get_active_users_eq_nil_of_lookup_none hl] at hga
      simp at hga
    · rw [get_active_users_eq_of_lookup hl] at hga
      rcases room with _ | ⟨⟨u1, h1⟩, rest⟩
      · simp [dictKeys] at hga
      · rw [dictKeys_cons] at hga
        simp only [List.cons.injEq] at hga
        obtain ⟨hu1, hrest⟩ := hga
        have hrest2 : rest = [] := by simpa [dictKeys] using hrest
        subst hrest2
        have hu1a : u1 = u := hu1
        subst hu1a
        have hus : (dictLookup u1 [(u1, h1)]).isSome = true := by
          simp [dictLookup]
        have herase : dictErase u1 [(u1, h1)] = [] := by simp [dictErase]
        rw [disconnect_of_last_user hl hus herase]
        exact dictLookup_erase_self_of_nodup d hnd

/-- Witness for C1 at concrete inputs. -/
theorem c1_registry_tracks_membership_witness :
    (ConnectionManager.get_active_users
        (applyOps (initManager false)
          [RegistryOp.connectOp "d" "a" 0, RegistryOp.disconnectOp "d" "a"])
        "d").toFinset =
      specConnected "d"
        [RegistryOp.connectOp "d" "a" 0, RegistryOp.disconnectOp "d" "a"] ∅
    ∧ (⟨[("d", [("a", 0)])], false, []⟩ : ConnectionManager).disconnect "d" "b"
        = ⟨[("d", [("a", 0)])], false, []⟩
    ∧ dictLookup "d" ((⟨[("d", [("a", 0)])], false, []⟩ :
        ConnectionManager).disconnect "d" "a").active_connections = none := by
  refine ⟨(c1_registry_tracks_membership _ "d" false).1, ?_, ?_⟩
  · exact (c1_registry_tracks_membership [] "d" false).2.1
      ⟨[("d", [("a", 0)])], false, []⟩ "d" "b" (by decide)
  · exact (c1_registry_tracks_membership [] "d" false).2.2
      ⟨[("d", [("a", 0)])], false, []⟩ "d" "a" (by decide) (by decide)

/-- **C2, counterexample**: the claim quantifies over *every* participant id
passed as the exclusion.  For the empty-string id the Python test
`if exclude_user and user_id == exclude_user` is falsy (`""` is falsy), so
the exclusion is ignored and the excluded participant itself receives the
message. -/
theorem c2_counterexample :
    ("", "m1") ∈ ((⟨[("d", [("", 0), ("b", 1)])], false, []⟩ :
      ConnectionManager).broadcast_to_document "d" "m1" (some "")
        allSendsOk).sends := by
  decide

/-- **C2 (amended)**: for every *non-empty* participant id `P` passed as the
exclusion, `broadcast_to_document` delivers the message to every participant
currently registered for the document other than `P` (with deliveries
succeeding), and never delivers it to `P` under any send environment.  (When
`P` is the empty string the code treats it as no exclusion.) -/
theorem c2_broadcast_exclusion (m : ConnectionManager) (doc : DocId)
    (msg : Msg) (e : UserId) (he : e ≠ "") :
    (∀ (sendOk : SendEnv) (u : UserId) (mm : Msg),
      (u, mm) ∈ (m.broadcast_to_document doc msg (some e) sendOk).sends →
        u ≠ e)
    ∧ ∀ u : UserId, u ∈ m.get_active_users doc → u ≠ e →
        (u, msg) ∈ (m.broadcast_to_document doc msg (some e)
          allSendsOk).sends := by
  constructor
  · intro sendOk u mm hmem
    rcases hl : dictLookup doc m.active_connections with _ | room
    · rw [broadcast_of_no_room msg (some e) sendOk hl] at hmem
      simp at hmem
    · rcases (broadcast_sends_mem hl u mm).mp hmem with ⟨_, _, _, hskip, _⟩
      exact (pySkip_some_false_iff he).mp hskip
  · intro u hu hne
    rcases hl : dictLookup doc m.active_connections with _ | room
    · rw [get_active_users_eq_nil_of_lookup_none hl] at hu
      simp at hu
    · rw [get_active_users_eq_of_lookup hl] at hu
      rcases List.mem_map.mp hu with ⟨⟨u1, h1⟩, hmem, hfst⟩
      have hu1 : u1 = u := hfst
      subst hu1
      exact (broadcast_sends_mem hl u1 msg).mpr
        ⟨rfl, h1, hmem, pySkip_of_ne hne, rfl⟩

/-- Witness for C2 (amended) at concrete inputs. -/
theorem c2_broadcast_exclusion_witness :
    ("a", "m") ∈ ((⟨[("d", [("a", 0), ("b", 1)])], false, []⟩ :
      ConnectionManager).broadcast_to_document "d" "m" (some "b")
        allSendsOk).sends :=
  (c2_broadcast_exclusion ⟨[("d", [("a", 0), ("b", 1)])], false, []⟩
    "d" "m" "b" (by decide)).2 "a" (by decide) (by decide)

/-- **C3**: if during a broadcast one participant's send raises (environment
`failOnly f`) while all other sends succeed, every other registered
participant still receives the message, the failing participant is removed
from the registry (absent from `get_active_users` of the resulting state),
and it receives nothing in any later broadcast on the resulting state. -/
theorem c3_broadcast_failure_isolation (m : ConnectionManager) (doc : DocId)
    (f : UserId) (msg : Msg) (hWF : WF m)
    (hf : f ∈ m.get_active_users doc) :
    (∀ u : UserId, u ∈ m.get_active_users doc → u ≠ f →
      (u, msg) ∈ (m.broadcast_to_document doc msg none (failOnly f)).sends)
    ∧ f ∉ ((m.broadcast_to_document doc msg none
        (failOnly f)).state.get_active_users doc)
    ∧ ∀ (msg2 : Msg) (ex2 : Option UserId) (ok2 : SendEnv) (mm : Msg),
        (f, mm) ∉ ((m.broadcast_to_document doc msg none
          (failOnly f)).state.broadcast_to_document doc msg2 ex2
            ok2).sends := by
  rcases hl : dictLookup doc m.active_connections with _ | room
  · rw [get_active_users_eq_nil_of_lookup_none hl] at hf
    simp at hf
  · have hroomnd : (dictKeys room).Nodup :=
      hWF.2 (doc, room) (dictLookup_mem hl)
    have hfk : f ∈ dictKeys room := by
      rwa [get_active_users_eq_of_lookup hl] at hf
    have hstate : (m.broadcast_to_document doc msg none (failOnly f)).state =
        m.disconnect doc f := by
      rw [broadcast_state_eq msg none (failOnly f) hl, sendLoop_dead]
      have hfilter :
          room.filter (fun e => !pySkip none e.1 && !failOnly f e.1 e.2) =
            room.filter (fun e => decide (e.1 = f)) := by
        apply List.filter_congr
        intro e _
        simp [pySkip, failOnly, decide_not]
      rw [hfilter, filter_fst_eq_of_nodup f room hroomnd hfk]
      rfl
    have hgone : f ∉ (m.disconnect doc f).get_active_users doc := by
      intro hmem
      have h2 := get_active_users_disconnect m hWF doc f doc
      rw [if_pos rfl] at h2
      have h3 : f ∈ ((m.disconnect doc f).get_active_users doc).toFinset :=
        List.mem_toFinset.mpr hmem
      rw [h2] at h3
      exact (Finset.not_mem_erase f _) h3
    refine ⟨?_, ?_, ?_⟩
    · intro u hu hne
      rcases List.mem_map.mp
          (by rwa [get_active_users_eq_of_lookup hl] at hu) with
        ⟨⟨u1, h1⟩, hmem, hfst⟩
      have hu1 : u1 = u := hfst
      subst hu1
      refine (broadcast_sends_mem hl u1 msg).mpr ⟨rfl, h1, hmem, rfl, ?_⟩
      simp [failOnly, hne]
    · rw [hstate]
      exact hgone
    · intro msg2 ex2 ok2 mm hmem
      rw [hstate] at hmem
      exact hgone (broadcast_sends_mem_active _ _ _ _ _ _ _ hmem)

/-- Witness for C3 at concrete inputs. -/
theorem c3_broadcast_failure_isolation_witness :
    ("a", "m") ∈ ((⟨[("d", [("a", 0), ("f", 1)])], false, []⟩ :
        ConnectionManager).broadcast_to_document "d" "m" none
          (failOnly "f")).sends
    ∧ "f" ∉ ((⟨[("d", [("a", 0), ("f", 1)])], false, []⟩ :
        ConnectionManager).broadcast_to_document "d" "m" none
          (failOnly "f")).state.get_active_users "d" := by
  have h := c3_broadcast_failure_isolation
    ⟨[("d", [("a", 0), ("f", 1)])], false, []⟩ "d" "f" "m"
    ⟨by decide, by decide⟩ (by decide)
  exact ⟨h.1 "a" (by decide) (by decide), h.2.1⟩

/-- **C4**: a locally-originated broadcast publishes its envelope to the bus
exactly once (whenever the bus client exists), while a message delivered by
the relay listener is forwarded only to local connections and publishes
nothing back to the bus, so each original edit yields exactly one bus
publish and no echo loop. -/
theorem c4_bus_publish_once_no_echo (m : ConnectionManager) (doc : DocId)
    (msg : Msg) (ex : Option UserId) (sendOk : SendEnv)
    (hr : m.redisConnected = true) :
    (m.broadcast_to_document doc msg ex sendOk).publishes =
      [publish_to_redis doc msg ex]
    ∧ ∀ (m2 : ConnectionManager) (doc2 : DocId) (msg2 : Msg)
        (ex2 : Option UserId) (ok2 : SendEnv),
        (m2.redis_listener_deliver doc2 msg2 ex2 ok2).publishes = []
        ∧ (m2.redis_listener_deliver doc2 msg2 ex2 ok2).state = m2 := by
  constructor
  · rw [broadcast_publishes, hr]
    simp
  · intro m2 doc2 msg2 ex2 ok2
    unfold ConnectionManager.redis_listener_deliver
    rcases dictLookup doc2 m2.active_connections with _ | room
    · exact ⟨rfl, rfl⟩
    · exact ⟨rfl, rfl⟩

/-- Witness for C4 at concrete inputs. -/
theorem c4_bus_publish_once_no_echo_witness :
    ((⟨[], true, []⟩ : ConnectionManager).broadcast_to_document "d" "m" none
      allSendsOk).publishes = [publish_to_redis "d" "m" none] :=
  (c4_bus_publish_once_no_echo ⟨[], true, []⟩ "d" "m" none allSendsOk rfl).1

/-- **C10**: broadcasting on a document with no locally registered
participants delivers to no handle, leaves the registry unchanged, and still
publishes the envelope to the document's bus channel exactly once whenever
the bus client exists. -/
theorem c10_broadcast_no_local_participants (m : ConnectionManager)
    (doc : DocId) (msg : Msg) (ex : Option UserId) (sendOk : SendEnv)
    (h : m.get_active_users doc = []) :
    (m.broadcast_to_document doc msg ex sendOk).sends = []
    ∧ (m.broadcast_to_document doc msg ex sendOk).state = m
    ∧ (m.redisConnected = true →
        (m.broadcast_to_document doc msg ex sendOk).publishes =
          [publish_to_redis doc msg ex]) := by
  rcases hl : dictLookup doc m.active_connections with _ | room
  · rw [broadcast_of_no_room msg ex sendOk hl]
    refine ⟨rfl, rfl, fun hr => ?_⟩
    simp [hr]
  · have hroom : room = [] := by
      rw [get_active_users_eq_of_lookup hl] at h
      simpa [dictKeys] using h
    subst hroom
    refine ⟨?_, ?_, fun hr => ?_⟩
    · rw [broadcast_sends_eq msg ex sendOk hl]
      simp [sendLoop]
    · rw [broadcast_state_eq msg ex sendOk hl]
      simp [sendLoop]
    · rw [broadcast_publishes, hr]
      simp

/-- Witness for C10 at concrete inputs. -/
theorem c10_broadcast_no_local_participants_witness :
    ((⟨[], true, []⟩ : ConnectionManager).broadcast_to_document "d" "m" none
      allSendsOk).sends = []
    ∧ ((⟨[], true, []⟩ : ConnectionManager).broadcast_to_document "d" "m"
      none allSendsOk).state = ⟨[], true, []⟩
    ∧ ((⟨[], true, []⟩ : ConnectionManager).broadcast_to_document "d" "m"
      none allSendsOk).publishes = [publish_to_redis "d" "m" none] := by
  have h := c10_broadcast_no_local_participants ⟨[], true, []⟩ "d" "m" none
    allSendsOk rfl
  exact ⟨h.1, h.2.1, h.2.2 rfl⟩

/-! ## Write-back cache (`backend/document_persistence.py`)

The SQLAlchemy layer (`models.Document`) is a keyed store `List (Nat × String)`
from integer document id to content; a commit either succeeds (the row is
created or updated) or raises (modelled by the per-id environment `storeOk`),
after which the session is rolled back. -/

/-- Python `str.isdigit()` for ASCII content: non-empty and all digits
(over the character list of the string). -/
def pyIsDigit (s : String) : Bool := !(s.data.isEmpty) && s.data.all Char.isDigit

/-- Python `int(s)` on an all-digit string. -/
def pyToNat (s : String) : Nat :=
  s.data.foldl (fun n c => n * 10 + (c.toNat - 48)) 0

/-- State of `DocumentPersistenceManager`: the content cache and the dirty
flags (both Python dicts keyed by the string document id). -/
structure PersistenceManager where
  document_cache : List (DocId × String)
  dirty_documents : List (DocId × Bool)
  deriving DecidableEq, Repr

/-- `DocumentPersistenceManager.update_document`: overwrite the cached
content and mark the document dirty (called on every edit). -/
def PersistenceManager.update_document (pm : PersistenceManager)
    (document_id : DocId) (content : String) : PersistenceManager :=
  { document_cache := dictInsert document_id content pm.document_cache,
    dirty_documents := dictInsert document_id true pm.dirty_documents }

/-- Per-id commit success of the durable store during one sweep. -/
abbrev StoreEnv := Nat → Bool

/-- State threaded through one `save_all_dirty_documents` sweep: the
manager, the durable store, and the commits attempted so far (string id and
the integer id written). -/
structure SaveSweep where
  pm : PersistenceManager
  db : List (Nat × String)
  attempts : List (DocId × Nat)
  deriving DecidableEq, Repr

/-- The loop body of `save_all_dirty_documents` for one snapshot entry:
skip clean entries, skip entries without cached content, skip (with a
warning) non-numeric ids, otherwise attempt one commit; on success the row
is created or updated and the flag set clean, on failure the session is
rolled back and the flag left dirty. -/
def saveDoc (storeOk : StoreEnv) (st : SaveSweep) (entry : DocId × Bool) :
    SaveSweep :=
  if !entry.2 then st
  else
    match dictLookup entry.1 st.pm.document_cache with
    | none => st
    | some content =>
      if pyIsDigit entry.1 then
        let dbId := pyToNat entry.1
        if storeOk dbId then
          { pm := { st.pm with
              dirty_documents := dictInsert entry.1 false
                st.pm.dirty_documents },
            db := dictInsert dbId content st.db,
            attempts := st.attempts ++ [(entry.1, dbId)] }
        else
          { st with attempts := st.attempts ++ [(entry.1, dbId)] }
      else st

/-- `DocumentPersistenceManager.save_all_dirty_documents`: early return when
nothing is dirty, else iterate over a snapshot `list(...items())` of the
dirty dict. -/
def PersistenceManager.save_all_dirty_documents (pm : PersistenceManager)
    (db : List (Nat × String)) (storeOk : StoreEnv) : SaveSweep :=
  if pm.dirty_documents.isEmpty then { pm := pm, db := db, attempts := [] }
  else if (pm.dirty_documents.filter (fun e => e.2)).isEmpty then
    { pm := pm, db := db, attempts := [] }
  else pm.dirty_documents.foldl (saveDoc storeOk) { pm := pm, db := db, attempts := [] }

/-- `DocumentPersistenceManager.load_document`: for a numeric id present in
the store, seed the cache with the stored content and mark the entry clean;
otherwise return `None` and change nothing. -/
def PersistenceManager.load_document (pm : PersistenceManager)
    (db : List (Nat × String)) (document_id : DocId) :
    PersistenceManager × Option String :=
  if pyIsDigit document_id then
    match dictLookup (pyToNat document_id) db with
    | some content =>
      ({ document_cache := dictInsert document_id content pm.document_cache,
         dirty_documents := dictInsert document_id false pm.dirty_documents },
       some content)
    | none => (pm, none)
  else (pm, none)

/-- `DocumentPersistenceManager.get_cached_content`. -/
def PersistenceManager.get_cached_content (pm : PersistenceManager)
    (document_id : DocId) : Option String :=
  dictLookup document_id pm.document_cache

/-- Events of the auto-save background task, in execution order. -/
inductive LoopEv where
  | slept
  | flushed
  | cancelled
  | finalFlushed
  | terminated
  deriving DecidableEq, Repr

/-- `DocumentPersistenceManager.auto_save_loop`: sleep an interval, flush,
repeat; `fuel` counts the completed sleep-flush iterations before the
cancellation signal arrives (during the sleep).  On `CancelledError` the
handler performs one final `save_all_dirty_documents` and then breaks, so
the task terminates only after that flush. -/
def auto_save_loop (storeOk : StoreEnv) :
    Nat → PersistenceManager → List (Nat × String) →
      PersistenceManager × List (Nat × String) × List LoopEv
  | 0, pm, db =>
    let r := pm.save_all_dirty_documents db storeOk
    (r.pm, r.db, [LoopEv.cancelled, LoopEv.finalFlushed, LoopEv.terminated])
  | n + 1, pm, db =>
    let r := pm.save_all_dirty_documents db storeOk
    let rest := auto_save_loop storeOk n r.pm r.db
    (rest.1, rest.2.1, LoopEv.slept :: LoopEv.flushed :: rest.2.2)

/-- `DocumentPersistenceManager.stop_auto_save`: cancel the task and await
it; the value it observes is the completed run of `auto_save_loop`, final
flush included. -/
def stop_auto_save (storeOk : StoreEnv) (n : Nat) (pm : PersistenceManager)
    (db : List (Nat × String)) :
    PersistenceManager × List (Nat × String) × List LoopEv :=
  auto_save_loop storeOk n pm db

/-- The manager and store state reached after the `n` completed normal
sweeps, i.e. at the moment the cancellation signal arrives. -/
def normal_sweeps (storeOk : StoreEnv) :
    Nat → PersistenceManager → List (Nat × String) →
      PersistenceManager × List (Nat × String)
  | 0, pm, db => (pm, db)
  | n + 1, pm, db =>
    let r := pm.save_all_dirty_documents db storeOk
    normal_sweeps storeOk n r.pm r.db

/-! ### Characterization of one flush sweep -/

/-- A snapshot entry that reaches the commit: flagged dirty, cached content
present, and a numeric id (non-numeric ids are skipped with a warning). -/
def eligibleB (cache : List (DocId × String)) (e : DocId × Bool) : Bool :=
  e.2 && (dictLookup e.1 cache).isSome && pyIsDigit e.1

theorem saveDoc_cache (storeOk : StoreEnv) (st : SaveSweep)
    (e : DocId × Bool) :
    (saveDoc storeOk st e).pm.document_cache = st.pm.document_cache := by
  rcases e with ⟨d, b⟩
  unfold saveDoc
  rcases b with _ | _
  · simp
  · rcases hc : dictLookup d st.pm.document_cache with _ | content
    · simp [hc]
    · by_cases hd : pyIsDigit d
      · by_cases hs : storeOk (pyToNat d) <;> simp [hc, hd, hs]
      · simp [hc, hd]

theorem saveDoc_attempts (storeOk : StoreEnv) (st : SaveSweep)
    (e : DocId × Bool) :
    (saveDoc storeOk st e).attempts =
      st.attempts ++ (if eligibleB st.pm.document_cache e
        then [(e.1, pyToNat e.1)] else []) := by
  rcases e with ⟨d, b⟩
  unfold saveDoc eligibleB
  rcases b with _ | _
  · simp
  · rcases hc : dictLookup d st.pm.document_cache with _ | content
    · simp [hc]
    · by_cases hd : pyIsDigit d
      · by_cases hs : storeOk (pyToNat d) <;> simp [hc, hd, hs]
      · simp [hc, hd]

theorem saveDoc_dirty_lookup (storeOk : StoreEnv) (st : SaveSweep)
    (e : DocId × Bool) (d : DocId) :
    dictLookup d (saveDoc storeOk st e).pm.dirty_documents =
      if e.1 = d ∧ eligibleB st.pm.document_cache e = true ∧
          storeOk (pyToNat e.1) = true
      then some false
      else dictLookup d st.pm.dirty_documents := by
  rcases e with ⟨d1, b⟩
  unfold saveDoc eligibleB
  rcases b with _ | _
  · simp
  · rcases hc : dictLookup d1 st.pm.document_cache with _ | content
    · simp [hc]
    · by_cases hd : pyIsDigit d1
      · by_cases hs : storeOk (pyToNat d1)
        · by_cases hde : d1 = d
          · subst hde
            simp [hc, hd, hs, dictLookup_insert_self]
          · simp [hc, hd, hs, hde,
              dictLookup_insert_ne _ _ (fun h2 => hde h2.symm)]
        · simp [hc, hd, hs]
      · simp [hc, hd]

theorem foldl_saveDoc_attempts (storeOk : StoreEnv)
    (l : List (DocId × Bool)) :
    ∀ st : SaveSweep,
      (l.foldl (saveDoc storeOk) st).attempts =
        st.attempts ++ (l.filter (eligibleB st.pm.document_cache)).map
          (fun e => (e.1, pyToNat e.1)) := by
  induction l with
  | nil => intro st; simp
  | cons e rest ih =>
    intro st
    rw [List.foldl_cons, ih, saveDoc_cache, saveDoc_attempts]
    by_cases he : eligibleB st.pm.document_cache e = true
    · simp [List.filter_cons, he]
    · simp at he
      simp [List.filter_cons, he]

theorem foldl_saveDoc_dirty_lookup (storeOk : StoreEnv)
    (l : List (DocId × Bool)) (d : DocId) :
    ∀ st : SaveSweep,
      dictLookup d (l.foldl (saveDoc storeOk) st).pm.dirty_documents =
        if l.any (fun e => decide (e.1 = d) &&
            eligibleB st.pm.document_cache e && storeOk (pyToNat e.1))
        then some false
        else dictLookup d st.pm.dirty_documents := by
  induction l with
  | nil => intro st; simp
  | cons e rest ih =>
    intro st
    rw [List.foldl_cons, ih, saveDoc_cache, saveDoc_dirty_lookup]
    by_cases he : (decide (e.1 = d) && eligibleB st.pm.document_cache e &&
        storeOk (pyToNat e.1)) = true
    · have hC : e.1 = d ∧ eligibleB st.pm.document_cache e = true ∧
          storeOk (pyToNat e.1) = true := by
        simpa [Bool.and_eq_true, and_assoc] using he
      rw [if_pos hC]
      simp [List.any_cons, he, ite_self]
    · have hC : ¬(e.1 = d ∧ eligibleB st.pm.document_cache e = true ∧
          storeOk (pyToNat e.1) = true) := by
        rintro ⟨h1, h2, h3⟩
        have h4 : storeOk (pyToNat d) = true := h1 ▸ h3
        exact he (by simp [h1, h2, h3, h4])
      rw [if_neg hC]
      have he2 : (decide (e.1 = d) && eligibleB st.pm.document_cache e &&
          storeOk (pyToNat e.1)) = false := by
        rcases hb : (decide (e.1 = d) && eligibleB st.pm.document_cache e &&
          storeOk (pyToNat e.1)) with _ | _
        · rfl
        · exact absurd hb he
      simp only [List.any_cons, he2, Bool.false_or]

theorem foldl_saveDoc_all_clean (storeOk : StoreEnv)
    (l : List (DocId × Bool)) (hall : ∀ e ∈ l, e.2 = false) :
    ∀ st : SaveSweep, l.foldl (saveDoc storeOk) st = st := by
  induction l with
  | nil => intro st; rfl
  | cons e rest ih =>
    intro st
    rw [List.foldl_cons]
    have he : e.2 = false := hall e (by simp)
    have hstep : saveDoc storeOk st e = st := by
      unfold saveDoc
      simp [he]
    rw [hstep]
    exact ih (fun e2 h2 => hall e2 (by simp [h2])) st

theorem save_all_eq_foldl (pm : PersistenceManager)
    (db : List (Nat × String)) (storeOk : StoreEnv) :
    pm.save_all_dirty_documents db storeOk =
      pm.dirty_documents.foldl (saveDoc storeOk)
        { pm := pm, db := db, attempts := [] } := by
  unfold PersistenceManager.save_all_dirty_documents
  by_cases h1 : pm.dirty_documents.isEmpty
  · rw [if_pos h1]
    have h2 : pm.dirty_documents = [] := by
      rwa [List.isEmpty_iff] at h1
    rw [h2]
    rfl
  · rw [if_neg h1]
    by_cases h2 : (pm.dirty_documents.filter (fun e => e.2)).isEmpty
    · rw [if_pos h2]
      have hnil : pm.dirty_documents.filter (fun e => e.2) = [] := by
        rwa [List.isEmpty_iff] at h2
      have hall : ∀ e ∈ pm.dirty_documents, e.2 = false := by
        intro e hel
        rcases he2 : e.2 with _ | _
        · rfl
        · have hmem : e ∈ pm.dirty_documents.filter (fun x => x.2) :=
            List.mem_filter.mpr ⟨hel, he2⟩
          rw [hnil] at hmem
          simp at hmem
      exact (foldl_saveDoc_all_clean storeOk pm.dirty_documents hall _).symm
    · rw [if_neg h2]

theorem count_map_fst_filter_eq_zero {γ : Type} (d : String)
    (l : List (String × γ)) (q : String × γ → Bool) (hd : d ∉ dictKeys l) :
    ((l.filter q).map Prod.fst).count d = 0 := by
  rw [List.count_eq_zero]
  intro hmem
  rcases List.mem_map.mp hmem with ⟨e, he, hfst⟩
  exact hd (List.mem_map.mpr ⟨e, (List.mem_filter.mp he).1, hfst⟩)

/-- With unique keys, an entry keyed `d` that passes the filter is counted
exactly once among the first components of the filtered list. -/
theorem count_map_fst_filter_of_nodup {γ : Type} (d : String)
    (l : List (String × γ)) (q : String × γ → Bool)
    (hnd : (dictKeys l).Nodup) (v : γ) (hv : (d, v) ∈ l)
    (hq : q (d, v) = true) :
    ((l.filter q).map Prod.fst).count d = 1 := by
  induction l with
  | nil => simp at hv
  | cons e rest ih =>
    obtain ⟨k1, v1⟩ := e
    rw [dictKeys_cons, List.nodup_cons] at hnd
    by_cases hk : k1 = d
    · subst hk
      have hvv : v1 = v := by
        rcases List.mem_cons.mp hv with h | h
        · exact (Prod.mk.injEq _ _ _ _ ▸ h).2.symm
        · exact absurd (List.mem_map.mpr ⟨(k1, v), h, rfl⟩) hnd.1
      subst hvv
      rw [List.filter_cons, if_pos hq]
      rw [List.map_cons, List.count_cons_self]
      rw [count_map_fst_filter_eq_zero k1 rest q hnd.1]
    · have hv2 : (d, v) ∈ rest := by
        rcases List.mem_cons.mp hv with h | h
        · exact absurd (congrArg Prod.fst h).symm hk
        · exact h
      rw [List.filter_cons]
      by_cases hq1 : q (k1, v1) = true
      · rw [if_pos hq1, List.map_cons, List.count_cons_of_ne
          (fun h2 => hk h2.symm)]
        exact ih hnd.2 hv2
      · rw [if_neg hq1]
        exact ih hnd.2 hv2

/-- The complete run of a cancelled auto-save task: `n` sleep-flush
iterations, then the cancellation handler's final flush, then termination. -/
theorem auto_save_loop_run (storeOk : StoreEnv) (n : Nat) :
    ∀ (pm : PersistenceManager) (db : List (Nat × String)),
      auto_save_loop storeOk n pm db =
        (((normal_sweeps storeOk n pm db).1.save_all_dirty_documents
            (normal_sweeps storeOk n pm db).2 storeOk).pm,
          ((normal_sweeps storeOk n pm db).1.save_all_dirty_documents
            (normal_sweeps storeOk n pm db).2 storeOk).db,
          (List.replicate n [LoopEv.slept, LoopEv.flushed]).flatten ++
            [LoopEv.cancelled, LoopEv.finalFlushed, LoopEv.terminated]) := by
  induction n with
  | zero => intro pm db; rfl
  | succ k ih =>
    intro pm db
    have hstep : auto_save_loop storeOk (k + 1) pm db =
        ((auto_save_loop storeOk k (pm.save_all_dirty_documents db storeOk).pm
            (pm.save_all_dirty_documents db storeOk).db).1,
          (auto_save_loop storeOk k (pm.save_all_dirty_documents db storeOk).pm
            (pm.save_all_dirty_documents db storeOk).db).2.1,
          LoopEv.slept :: LoopEv.flushed ::
            (auto_save_loop storeOk k
              (pm.save_all_dirty_documents db storeOk).pm
              (pm.save_all_dirty_documents db storeOk).db).2.2) := rfl
    have hns : normal_sweeps storeOk (k + 1) pm db =
        normal_sweeps storeOk k (pm.save_all_dirty_documents db storeOk).pm
          (pm.save_all_dirty_documents db storeOk).db := rfl
    rw [hstep, ih, hns]
    simp [List.replicate_succ]

/-- **C6, counterexample**: the claim promises exactly one durable write
attempt for *every* dirty document id, but the sweep silently skips
non-numeric ids (`str.isdigit()` gate): a dirty `"demo-doc"` entry gets zero
attempts and stays dirty forever. -/
theorem c6_counterexample :
    dictLookup "demo-doc"
        ((⟨[("demo-doc", "x")], [("demo-doc", true)]⟩ :
          PersistenceManager).dirty_documents) = some true
    ∧ ((⟨[("demo-doc", "x")], [("demo-doc", true)]⟩ :
        PersistenceManager).save_all_dirty_documents [] (fun _ => true)).attempts
        = []
    ∧ dictLookup "demo-doc"
        (((⟨[("demo-doc", "x")], [("demo-doc", true)]⟩ :
          PersistenceManager).save_all_dirty_documents []
            (fun _ => true)).pm.dirty_documents) = some true := by
  decide

/-- **C6 (amended)**: each `save_all_dirty_documents` sweep attempts exactly
one durable write for every dirty document id that is numeric and has cached
content (non-numeric ids are skipped); a store failure on one id does not
abort the sweep (the count holds for every such id whatever `storeOk` does
elsewhere), leaves that entry dirty for the next sweep, and a successful
write marks it clean. -/
theorem c6_flush_sweep (pm : PersistenceManager) (db : List (Nat × String))
    (storeOk : StoreEnv) (d : DocId) (c : String)
    (hnd : (dictKeys pm.dirty_documents).Nodup)
    (hdirty : dictLookup d pm.dirty_documents = some true)
    (hcache : dictLookup d pm.document_cache = some c)
    (hdigit : pyIsDigit d = true) :
    (((pm.save_all_dirty_documents db storeOk).attempts.map Prod.fst).count d
        = 1)
    ∧ (storeOk (pyToNat d) = false →
        dictLookup d
          (pm.save_all_dirty_documents db storeOk).pm.dirty_documents =
          some true)
    ∧ (storeOk (pyToNat d) = true →
        dictLookup d
          (pm.save_all_dirty_documents db storeOk).pm.dirty_documents =
          some false) := by
  have hmem : (d, true) ∈ pm.dirty_documents := dictLookup_mem hdirty
  have helig : eligibleB pm.document_cache (d, true) = true := by
    simp [eligibleB, hcache, hdigit]
  refine ⟨?_, ?_, ?_⟩
  · rw [save_all_eq_foldl, foldl_saveDoc_attempts]
    simp only [List.nil_append, List.map_map]
    exact count_map_fst_filter_of_nodup d pm.dirty_documents _ hnd true hmem
      helig
  · intro hs
    rw [save_all_eq_foldl, foldl_saveDoc_dirty_lookup]
    have hany : (pm.dirty_documents.any fun e => decide (e.1 = d) &&
        eligibleB pm.document_cache e && storeOk (pyToNat e.1)) = false := by
      rw [List.any_eq_false]
      intro e hel
      by_cases hed : e.1 = d
      · have h5 : storeOk (pyToNat e.1) = false := by rw [hed]; exact hs
        simp [h5]
      · simp [hed]
    rw [if_neg (by simp [hany])]
    exact hdirty
  · intro hs
    rw [save_all_eq_foldl, foldl_saveDoc_dirty_lookup]
    have hany : (pm.dirty_documents.any fun e => decide (e.1 = d) &&
        eligibleB pm.document_cache e && storeOk (pyToNat e.1)) = true := by
      rw [List.any_eq_true]
      exact ⟨(d, true), hmem, by simp [helig, hs]⟩
    rw [if_pos (by simp [hany])]

/-- Witness for C6 (amended) at concrete inputs. -/
theorem c6_flush_sweep_witness :
    ((SaveSweep.attempts
        ((⟨[("5", "c")], [("5", true)]⟩ :
          PersistenceManager).save_all_dirty_documents []
            (fun _ => true))).map Prod.fst).count "5" = 1
    ∧ dictLookup "5" (((⟨[("5", "c")], [("5", true)]⟩ :
        PersistenceManager).save_all_dirty_documents []
          (fun _ => true)).pm.dirty_documents) = some false := by
  have h := c6_flush_sweep ⟨[("5", "c")], [("5", true)]⟩ [] (fun _ => true)
    "5" "c" (by decide) (by decide) (by decide) (by decide)
  exact ⟨h.1, h.2.2 rfl⟩

/-- **C7, counterexample**: `load_document` also clears the dirty flag (and
overwrites the cache with the stored content) without any flush having run,
so a successful flush is not the only dirty-to-clean transition. -/
theorem c7_counterexample :
    dictLookup "1" ((⟨[("1", "local-edit")], [("1", true)]⟩ :
        PersistenceManager).dirty_documents) = some true
    ∧ dictLookup "1"
        (Prod.fst ((⟨[("1", "local-edit")], [("1", true)]⟩ :
          PersistenceManager).load_document [(1, "stored")] "1")
            |>.dirty_documents) = some false := by
  decide

/-- **C7 (amended)**: `update_document` only sets the edited id dirty;
`save_all_dirty_documents` clears a flag only for an id that was attempted
and whose store write succeeded; and the only other operation clearing a
flag is `load_document`, which does so only for a numeric id found in the
store and simultaneously resets the cached content to the stored content. -/
theorem c7_dirty_flag_transitions (pm : PersistenceManager)
    (db : List (Nat × String)) (storeOk : StoreEnv) (d d2 : DocId)
    (c : String) :
    (dictLookup d2 ((pm.update_document d c).dirty_documents) =
        if d = d2 then some true else dictLookup d2 pm.dirty_documents)
    ∧ (dictLookup d
          (pm.save_all_dirty_documents db storeOk).pm.dirty_documents =
          dictLookup d pm.dirty_documents
        ∨ (dictLookup d
              (pm.save_all_dirty_documents db storeOk).pm.dirty_documents =
              some false
            ∧ (d, pyToNat d) ∈ (pm.save_all_dirty_documents db storeOk).attempts
            ∧ storeOk (pyToNat d) = true))
    ∧ (dictLookup d2 ((pm.load_document db d).1.dirty_documents) =
          dictLookup d2 pm.dirty_documents
        ∨ (d2 = d
            ∧ dictLookup d2 ((pm.load_document db d).1.dirty_documents) =
              some false
            ∧ pyIsDigit d = true
            ∧ ∃ c2 : String, dictLookup (pyToNat d) db = some c2
              ∧ dictLookup d ((pm.load_document db d).1.document_cache) =
                some c2)) := by
  refine ⟨?_, ?_, ?_⟩
  · unfold PersistenceManager.update_document
    by_cases hd : d = d2
    · subst hd
      rw [if_pos rfl]
      exact dictLookup_insert_self d true pm.dirty_documents
    · rw [if_neg hd]
      exact dictLookup_insert_ne true pm.dirty_documents
        (fun h2 => hd h2.symm)
  · rw [save_all_eq_foldl, foldl_saveDoc_dirty_lookup]
    by_cases hany : (pm.dirty_documents.any fun e => decide (e.1 = d) &&
        eligibleB pm.document_cache e && storeOk (pyToNat e.1)) = true
    · right
      rcases List.any_eq_true.mp hany with ⟨e, hel, hcond⟩
      simp only [Bool.and_eq_true, decide_eq_true_eq] at hcond
      obtain ⟨⟨h1, h2⟩, h3⟩ := hcond
      refine ⟨?_, ?_, ?_⟩
      · exact if_pos (by simp [hany])
      · rw [foldl_saveDoc_attempts]
        simp only [List.nil_append]
        refine List.mem_map.mpr ⟨e, List.mem_filter.mpr ⟨hel, h2⟩, ?_⟩
        rw [h1]
      · rw [← h1]
        exact h3
    · left
      have hf : (pm.dirty_documents.any fun e => decide (e.1 = d) &&
          eligibleB pm.document_cache e && storeOk (pyToNat e.1)) = false := by
        rcases hb : (pm.dirty_documents.any fun e => decide (e.1 = d) &&
            eligibleB pm.document_cache e && storeOk (pyToNat e.1)) with _ | _
        · rfl
        · exact absurd hb hany
      exact if_neg (by simp [hf])
  · unfold PersistenceManager.load_document
    by_cases hd : pyIsDigit d
    · rcases hc : dictLookup (pyToNat d) db with _ | content
      · left
        simp [hd, hc]
      · by_cases hdd : d2 = d
        · subst hdd
          right
          refine ⟨rfl, ?_, hd, content, rfl, ?_⟩
          · simp [hd, hc, dictLookup_insert_self]
          · simp [hd, hc, dictLookup_insert_self]
        · left
          simp only [hd, hc, if_true]
          exact dictLookup_insert_ne false pm.dirty_documents hdd
    · left
      simp [hd]

/-- **C5, counterexample**: on a clean shutdown the final flush does run,
but a dirty edit under a non-numeric document id is still silently dropped:
after the task terminates the store never received it and nothing will retry
it. -/
theorem c5_counterexample :
    (stop_auto_save (fun _ => true) 0
        ⟨[("demo-doc", "x")], [("demo-doc", true)]⟩ []).2.1 = []
    ∧ dictLookup "demo-doc"
        ((stop_auto_save (fun _ => true) 0
          ⟨[("demo-doc", "x")], [("demo-doc", true)]⟩ []).1.dirty_documents)
        = some true
    ∧ (stop_auto_save (fun _ => true) 0
        ⟨[("demo-doc", "x")], [("demo-doc", true)]⟩ []).2.2 =
      [LoopEv.cancelled, LoopEv.finalFlushed, LoopEv.terminated] := by
  decide

/-- **C5 (amended)**: a cancelled auto-save loop performs one final flush
after the cancellation signal and before it terminates, `stop_auto_save`
returns only the completed run (state as of after that final flush), and
every document dirty at cancellation whose id is numeric and whose content
is cached gets a write attempt in the final flush and, on store success, is
clean when `stop_auto_save` returns.  (Dirty entries with non-numeric ids
are still dropped, see the counterexample.) -/
theorem c5_final_flush_on_cancel (storeOk : StoreEnv) (n : Nat)
    (pm : PersistenceManager) (db : List (Nat × String)) :
    (∃ pre : List LoopEv,
      (stop_auto_save storeOk n pm db).2.2 =
        pre ++ [LoopEv.cancelled, LoopEv.finalFlushed, LoopEv.terminated])
    ∧ (stop_auto_save storeOk n pm db).1 =
        ((normal_sweeps storeOk n pm db).1.save_all_dirty_documents
          (normal_sweeps storeOk n pm db).2 storeOk).pm
    ∧ (stop_auto_save storeOk n pm db).2.1 =
        ((normal_sweeps storeOk n pm db).1.save_all_dirty_documents
          (normal_sweeps storeOk n pm db).2 storeOk).db
    ∧ ∀ (d : DocId) (c : String),
        dictLookup d (normal_sweeps storeOk n pm db).1.dirty_documents =
          some true →
        dictLookup d (normal_sweeps storeOk n pm db).1.document_cache =
          some c →
        pyIsDigit d = true →
        ((d, pyToNat d) ∈
            ((normal_sweeps storeOk n pm db).1.save_all_dirty_documents
              (normal_sweeps storeOk n pm db).2 storeOk).attempts
          ∧ (storeOk (pyToNat d) = true →
              dictLookup d
                ((stop_auto_save storeOk n pm db).1.dirty_documents) =
                some false)) := by
  have hrun := auto_save_loop_run storeOk n pm db
  refine ⟨⟨(List.replicate n [LoopEv.slept, LoopEv.flushed]).flatten, ?_⟩,
    ?_, ?_, ?_⟩
  · show (auto_save_loop storeOk n pm db).2.2 = _
    rw [hrun]
  · show (auto_save_loop storeOk n pm db).1 = _
    rw [hrun]
  · show (auto_save_loop storeOk n pm db).2.1 = _
    rw [hrun]
  · intro d c hdirty hcache hdigit
    have hmem : (d, true) ∈ (normal_sweeps storeOk n pm db).1.dirty_documents :=
      dictLookup_mem hdirty
    have helig : eligibleB (normal_sweeps storeOk n pm db).1.document_cache
        (d, true) = true := by
      simp [eligibleB, hcache, hdigit]
    constructor
    · rw [save_all_eq_foldl, foldl_saveDoc_attempts]
      simp only [List.nil_append]
      exact List.mem_map.mpr
        ⟨(d, true), List.mem_filter.mpr ⟨hmem, helig⟩, rfl⟩
    · intro hs
      show dictLookup d (auto_save_loop storeOk n pm db).1.dirty_documents =
        some false
      rw [hrun]
      rw [save_all_eq_foldl, foldl_saveDoc_dirty_lookup]
      have hany : ((normal_sweeps storeOk n pm db).1.dirty_documents.any
          fun e => decide (e.1 = d) &&
            eligibleB (normal_sweeps storeOk n pm db).1.document_cache e &&
            storeOk (pyToNat e.1)) = true := by
        rw [List.any_eq_true]
        exact ⟨(d, true), hmem, by simp [helig, hs]⟩
      rw [if_pos (by simp [hany])]

/-- Witness for C5 (amended) at concrete inputs. -/
theorem c5_final_flush_on_cancel_witness :
    ("7", pyToNat "7") ∈
      ((normal_sweeps (fun _ => true) 0 ⟨[("7", "hello")], [("7", true)]⟩
          []).1.save_all_dirty_documents
        (normal_sweeps (fun _ => true) 0 ⟨[("7", "hello")], [("7", true)]⟩
          []).2 (fun _ => true)).attempts
    ∧ dictLookup "7"
        ((stop_auto_save (fun _ => true) 0
          ⟨[("7", "hello")], [("7", true)]⟩ []).1.dirty_documents) =
        some false := by
  have h := (c5_final_flush_on_cancel (fun _ => true) 0
    ⟨[("7", "hello")], [("7", true)]⟩ []).2.2.2 "7" "hello" (by decide)
    (by decide) (by decide)
  exact ⟨h.1, h.2 rfl⟩

/-! ## Session gateway (`backend/main.py`) and direct sends -/

/-- The `init` envelope of `websocket_endpoint`: the JSON dict
`{"type": "init", "user_id": ..., "username": ..., "active_users": ...,
"content": ...}` sent to the new connection. -/
structure InitEnvelope where
  msgType : String
  user_id : UserId
  username : String
  active_users : List UserId
  content : Option String
  deriving DecidableEq, Repr

/-- The connection-setup phase of `websocket_endpoint` after authentication:
snapshot `get_active_users` BEFORE `connect` (so the new registration is not
in the snapshot), connect, load the document from the database, then send
exactly one `init` envelope via `send_personal_message`.  Returns the new
manager, the new persistence state, and the direct sends made (exactly the
one `init`). -/
def websocket_endpoint_init (m : ConnectionManager) (pm : PersistenceManager)
    (db : List (Nat × String)) (document_id : DocId) (user_id : UserId)
    (username : String) (h : Handle) (sendOk : SendEnv) :
    ConnectionManager × PersistenceManager × List InitEnvelope :=
  let active_users := m.get_active_users document_id
  let m1 := m.connect document_id user_id h sendOk
  let loaded := pm.load_document db document_id
  (m1, loaded.1,
    [{ msgType := "init", user_id := user_id, username := username,
       active_users := active_users, content := loaded.2 }])

/-- **C8, counterexample**: the active-users snapshot is taken before the
new registration, but if the same participant id is already connected (a
second tab or a reconnect), the connecting participant's own id appears in
its init envelope's `active_users`, contradicting "never including the
connecting participant itself". -/
theorem c8_counterexample :
    (websocket_endpoint_init ⟨[("d", [("u", 0)])], false, []⟩ ⟨[], []⟩ []
      "d" "u" "name" 1 allSendsOk).2.2 =
      [{ msgType := "init", user_id := "u", username := "name",
         active_users := ["u"], content := none }] := by
  decide

/-- **C8 (amended)**: on a newly accepted authenticated connection the
server sends exactly one init envelope, containing the connecting
participant's own id and name, the ids of the participants registered
before this connection was added, and the content loaded from the store;
whenever the connecting participant id was not already connected to the
document, that list is exactly the other currently-connected ids and never
contains the connecting participant itself. -/
theorem c8_init_envelope (m : ConnectionManager) (pm : PersistenceManager)
    (db : List (Nat × String)) (doc : DocId) (u : UserId) (uname : String)
    (h : Handle) (sendOk : SendEnv) (hnot : u ∉ m.get_active_users doc) :
    (websocket_endpoint_init m pm db doc u uname h sendOk).2.2 =
      [{ msgType := "init", user_id := u, username := uname,
         active_users := m.get_active_users doc,
         content := (pm.load_document db doc).2 }]
    ∧ ∀ env ∈ (websocket_endpoint_init m pm db doc u uname h sendOk).2.2,
        u ∉ env.active_users := by
  refine ⟨rfl, ?_⟩
  intro env henv
  have henveq : env =
      { msgType := "init"
        user_id := u
        username := uname
        active_users := m.get_active_users doc
        content := (pm.load_document db doc).2 } := by
    simpa [websocket_endpoint_init] using henv
  rw [henveq]
  exact hnot

/-- Witness for C8 (amended) at concrete inputs. -/
theorem c8_init_envelope_witness :
    (websocket_endpoint_init ⟨[("d", [("v", 0)])], false, []⟩ ⟨[], []⟩ []
      "d" "u" "name" 1 allSendsOk).2.2 =
      [{ msgType := "init", user_id := "u", username := "name",
         active_users := ["v"], content := none }] := by
  have h := c8_init_envelope ⟨[("d", [("v", 0)])], false, []⟩ ⟨[], []⟩ []
    "d" "u" "name" 1 allSendsOk (by decide)
  exact h.1

/-- Result of the single `send_json` attempt made by
`send_personal_message`. -/
inductive SendOutcome where
  | success
  | failed (err : String)
  deriving DecidableEq, Repr

/-- `ConnectionManager.send_personal_message`: one `send_json` call on
exactly one handle inside `try/except`; an exception is caught and logged,
NOT re-raised, so the caller always observes a normal return.  Returns
(number of send attempts, the result the caller observes, the log lines). -/
def send_personal_message (outcome : SendOutcome) :
    Nat × Except String Unit × List String :=
  match outcome with
  | .success => (1, Except.ok (), [])
  | .failed e => (1, Except.ok (),
      ["Error sending personal message: " ++ e])

/-- **C9, counterexample**: a failing send is logged and swallowed — the
caller observes a normal return (`Except.ok ()`), not the error, so the
failure is not reported to the caller as the claim states. -/
theorem c9_counterexample :
    (send_personal_message (SendOutcome.failed "boom")).2.1 = Except.ok ()
    ∧ (send_personal_message (SendOutcome.failed "boom")).2.2 =
      ["Error sending personal message: boom"] :=
  ⟨rfl, rfl⟩

/-- **C9 (amended)**: `send_personal_message` attempts delivery on exactly
one connection handle; a failure of that single send is caught and logged
and the call returns normally to the caller (the failure is NOT propagated). -/
theorem c9_send_direct (outcome : SendOutcome) :
    (send_personal_message outcome).1 = 1
    ∧ (send_personal_message outcome).2.1 = Except.ok () := by
  cases outcome <;> exact ⟨rfl, rfl⟩
